import Mathlib

/-!
Verification development for the `sigctx` package: a derived cancellable
context that becomes done when an OS signal arrives, when the returned stop
function is called, or when the parent context is done.

The repository contains two variants of the implementation:
* `src/sigctx.go` — the `signalCtx` struct stores the `context.WithCancel`
  child in a field named `parent`, allocates and registers the signal channel
  only when that child is still live, and renders a fixed `"parent"`
  placeholder in `String()`.
* `src/unnamed/part_001` — embeds the `context.WithCancel` child, allocates
  and registers the signal channel unconditionally, and renders the parent by
  delegating to the child's `String()` and stripping a `".WithCancel"` suffix.

The dynamic behaviour (parent propagation, the background listener goroutine,
the stop function) is modelled as a small labelled transition system over a
`World` holding the `signalCtx` state together with the process-wide signal
registration table of the `os/signal` package.  String rendering is modelled
over `List Char`, matching Go's byte-slice string building.
-/

namespace Sigctx

/-- Go strings, modelled as lists of characters (the source builds its output
byte by byte into a `[]byte`; all strings involved are ASCII). -/
abbrev GoStr := List Char

/-- The character list of a Lean string literal, used to write `GoStr`
constants readably. -/
def gs (s : String) : GoStr := s.data

/-- Completion reasons of the Go `context` package: `context.Canceled`,
`context.DeadlineExceeded`, or any other error a parent context may report. -/
inductive GoError where
  | canceled
  | deadlineExceeded
  | other (msg : GoStr)
deriving DecidableEq

/-- The state of one `signalCtx` instance together with the state of the
`context.WithCancel` child it wraps.

* `parentErr` — `Err()` of the original parent context (`none` while live);
* `cause` — `Err()` of the `context.WithCancel` child: `none` while live,
  set once to the first completion reason (the child's `Err` is what both
  variants expose, `src/sigctx.go` via explicit delegation through its
  `parent` field, `part_001` via struct embedding);
* `cancelled` — whether `c.cancel` has been invoked (by the listener, by
  `stop`, or directly);
* `ch` — the signal delivery channel: `none` models a nil channel, `some id`
  an allocated channel identified by `id`;
* `pending` — whether the capacity-1 channel buffer holds a notification;
* `listener` — whether the background goroutine is running;
* `signals` — the watched signal kinds, by canonical name, in order. -/
structure SignalCtx where
  parentErr : Option GoError
  cause : Option GoError
  cancelled : Bool
  ch : Option Nat
  pending : Bool
  listener : Bool
  signals : List GoStr
deriving DecidableEq

/-- The world: one `signalCtx` instance plus the process-wide registration
table of the `os/signal` package (channel id paired with the signal list it
was registered with). -/
structure World where
  sc : SignalCtx
  table : List (Nat × List GoStr)
deriving DecidableEq

/-- `os/signal` dispatch semantics: a registration made with an empty signal
list relays every incoming signal; otherwise only the listed kinds. -/
def relays (watched : List GoStr) (s : GoStr) : Bool :=
  watched.isEmpty || watched.contains s

/-- `signal.Stop(c.ch)`: remove the channel's registration from the
process-wide table.  A nil channel (`none`) or a channel that was never
registered is a no-op — `signal.Stop` tolerates both without error. -/
def signalStop (ch : Option Nat) (t : List (Nat × List GoStr)) :
    List (Nat × List GoStr) :=
  match ch with
  | none => t
  | some c => t.filter (fun p => p.1 != c)

/-- Events of the transition system:

* `parentDone e` — the parent context becomes done with reason `e`;
* `sigDeliver s` — the OS delivers signal `s` to the process;
* `listenerRecv` — the listener's `select` takes the `<-c.ch` case and calls
  `c.cancel()`;
* `listenerExit` — the listener's `select` takes the `<-c.Done()` case and
  the goroutine exits without further action;
* `stop` — a caller invokes the returned stop function
  (`c.cancel(); signal.Stop(c.ch)`);
* `cancel` — the internal cancel function is invoked directly. -/
inductive Ev where
  | parentDone (e : GoError)
  | sigDeliver (s : GoStr)
  | listenerRecv
  | listenerExit
  | stop
  | cancel
deriving DecidableEq

/-- One transition.  `cause` is set at most once, to the first reason that
arrives, matching the one-shot semantics of a `cancelCtx`: cancellation by
the parent records the parent's error, cancellation via `c.cancel` records
`context.Canceled`. -/
def step (w : World) : Ev → World
  | .parentDone e =>
      if w.sc.parentErr.isSome then w
      else
        { w with sc := { w.sc with
            parentErr := some e,
            cause := some (w.sc.cause.getD e) } }
  | .sigDeliver s =>
      let deliverable :=
        (match w.sc.ch with
         | some c => w.table.any (fun p => p.1 == c && relays p.2 s)
         | none => false) && !w.sc.pending
      if deliverable then { w with sc := { w.sc with pending := true } } else w
  | .listenerRecv =>
      if w.sc.listener && w.sc.pending then
        { w with sc := { w.sc with
            pending := false,
            listener := false,
            cancelled := true,
            cause := some (w.sc.cause.getD GoError.canceled) } }
      else w
  | .listenerExit =>
      if w.sc.listener && w.sc.cause.isSome then
        { w with sc := { w.sc with listener := false } }
      else w
  | .stop =>
      { w with
        sc := { w.sc with
            cancelled := true,
            cause := some (w.sc.cause.getD GoError.canceled) },
        table := signalStop w.sc.ch w.table }
  | .cancel =>
      { w with sc := { w.sc with
          cancelled := true,
          cause := some (w.sc.cause.getD GoError.canceled) } }

/-- Run a trace of events from a state. -/
def runTrace (w : World) (tr : List Ev) : World := tr.foldl step w

/-- The derived context's done-state: its `Done` channel is closed exactly
when the wrapped `WithCancel` child has a completion reason. -/
def ctxDone (w : World) : Bool := w.sc.cause.isSome

/-- The derived context's `Err()`: both variants delegate to the wrapped
`WithCancel` child. -/
def ctxErr (w : World) : Option GoError := w.sc.cause

namespace SigctxGo

/-- `NotifyContext` of `src/sigctx.go`: derive the `WithCancel` child (whose
`Err` at this point is the parent's `Err`); only when `ctx.Err() == nil`
allocate the channel, register it with `signal.Notify`, and start the
listener goroutine.  With an already-done parent the channel stays nil and
nothing is registered. -/
def NotifyContext (parentErr : Option GoError) (signals : List GoStr) : World :=
  let live := parentErr.isNone
  { sc := { parentErr := parentErr
            cause := parentErr
            cancelled := false
            ch := if live then some 0 else none
            pending := false
            listener := live
            signals := signals }
    table := if live then [(0, signals)] else [] }

end SigctxGo

namespace Part001

/-- `NotifyContext` of `src/unnamed/part_001`: the channel is allocated and
registered with `signal.Notify` unconditionally, before the liveness check;
only the listener goroutine is guarded by `ctx.Err() == nil`. -/
def NotifyContext (parentErr : Option GoError) (signals : List GoStr) : World :=
  { sc := { parentErr := parentErr
            cause := parentErr
            cancelled := false
            ch := some 0
            pending := false
            listener := parentErr.isNone
            signals := signals }
    table := [(0, signals)] }

end Part001

/-- Whether the instance's channel currently has a registration in the
process-wide table. -/
def registeredFor (w : World) : Bool :=
  match w.sc.ch with
  | some c => w.table.any (fun p => p.1 == c)
  | none => false

/-- The events that invoke `c.cancel` when enabled: receipt of a buffered
signal by the listener, the stop function, and the direct internal cancel. -/
def firesCancel (w : World) : Ev → Bool
  | .listenerRecv => w.sc.listener && w.sc.pending
  | .stop => true
  | .cancel => true
  | _ => false

/-- The parent-done events. -/
def parentDoneEv : Ev → Bool
  | .parentDone _ => true
  | _ => false

/-- Input of the `String()` methods: the `String()` result of the wrapped
`context.WithCancel` child when it implements `fmt.Stringer` (`none`
otherwise), and the watched signal names.  For a parent that itself renders
as `p`, the `WithCancel` child renders as `p ++ ".WithCancel"` per the
`context` package's naming convention. -/
structure RenderCtx where
  childDescr : Option GoStr
  signals : List GoStr
deriving DecidableEq

/-- The suffix `".WithCancel"` that `part_001` strips from the child's
description. -/
def wcSuffix : GoStr := gs ".WithCancel"

namespace SigctxGo

/-- `signalCtx.String` of `src/sigctx.go`: appends the fixed text
`"signal.NotifyContext(parent"`, then — when the signal list is nonempty —
`", ["`, each signal name followed by a space character, and `']'`, and
finally `')'`.  The parent's own description is never consulted. -/
def stringOf (c : RenderCtx) : GoStr :=
  let buf := gs "signal.NotifyContext(parent"
  let buf :=
    if c.signals.length ≠ 0 then
      (c.signals.foldl (fun b s => (b ++ s) ++ [' ']) (buf ++ gs ", [")) ++ [']']
    else buf
  buf ++ [')']

end SigctxGo

namespace Part001

/-- The signal-name loop of `part_001`'s `String`: each name, with a space
after it except after the last (`if i != len(c.signals)-1`). -/
def renderSignals : List GoStr → GoStr
  | [] => []
  | [s] => s
  | s :: t :: rest => (s ++ [' ']) ++ renderSignals (t :: rest)

/-- `signalCtx.String` of `src/unnamed/part_001`: obtains the wrapped child's
description through the unchecked type assertion `c.Context.(stringer)`
(modelled as an error when the child has no description), slices off the last
`len(".WithCancel")` bytes (a slice with negative length panics, modelled as
an error when the description is shorter than the suffix), then renders
`"signal.NotifyContext(" ++ name`, the bracketed space-separated signal list
when nonempty, and the closing parenthesis. -/
def stringOf (c : RenderCtx) : Except GoStr GoStr :=
  match c.childDescr with
  | none => Except.error (gs "interface conversion: context is not a stringer")
  | some name =>
    if name.length < wcSuffix.length then
      Except.error (gs "slice bounds out of range")
    else
      let name := name.take (name.length - wcSuffix.length)
      let buf := gs "signal.NotifyContext(" ++ name
      let buf :=
        if c.signals.length ≠ 0 then
          ((buf ++ gs ", [") ++ renderSignals c.signals) ++ [']']
        else buf
      Except.ok (buf ++ [')'])

end Part001

/-- The form stated by the spec (§4.4): `signal.NotifyContext(` followed by
the parent's description, then — only when the signal list is nonempty — a
comma and the bracketed, space-separated signal names in order, then `)`. -/
def specRender (parentDescr : GoStr) (signals : List GoStr) : GoStr :=
  (gs "signal.NotifyContext(" ++ parentDescr ++
    (if signals.isEmpty then [] else
      (gs ", [" ++ List.intercalate (gs " ") signals) ++ gs "]")) ++ gs ")"

/-- The shape `src/sigctx.go` actually produces: like `specRender` with the
fixed parent placeholder, but with a space after every signal name (so a
nonempty list carries a trailing space before the closing bracket). -/
def specRenderTrailing (parentDescr : GoStr) (signals : List GoStr) : GoStr :=
  (gs "signal.NotifyContext(" ++ parentDescr ++
    (if signals.isEmpty then [] else
      (gs ", [" ++ (signals.map (fun s => s ++ [' '])).flatten) ++ gs "]")) ++ gs ")"

/-! ## Helper lemmas -/

/-- The done-state invariant: the wrapped `WithCancel` child has a completion
reason exactly when the parent is done or `c.cancel` has been invoked. -/
def doneInv (w : World) : Prop :=
  w.sc.cause.isSome = (w.sc.parentErr.isSome || w.sc.cancelled)

theorem doneInv_step (w : World) (e : Ev) (h : doneInv w) : doneInv (step w e) := by
  cases e <;> simp only [step, doneInv] at h ⊢ <;> (try split) <;> simp_all

theorem doneInv_run (tr : List Ev) (w : World) (h : doneInv w) :
    doneInv (runTrace w tr) := by
  induction tr generalizing w with
  | nil => exact h
  | cons e tr ih => exact ih _ (doneInv_step w e h)

theorem cancelled_step (w : World) (e : Ev) :
    (step w e).sc.cancelled = (w.sc.cancelled || firesCancel w e) := by
  cases e <;> simp only [step, firesCancel] <;> (try split) <;> simp_all

theorem parentErr_step (w : World) (e : Ev) :
    (step w e).sc.parentErr.isSome = (w.sc.parentErr.isSome || parentDoneEv e) := by
  cases e <;> simp only [step, parentDoneEv] <;> (try split) <;> simp_all

theorem doneInv_notify_sigctxGo (pe : Option GoError) (signals : List GoStr) :
    doneInv (SigctxGo.NotifyContext pe signals) := by
  cases pe <;> simp [doneInv, SigctxGo.NotifyContext]

theorem doneInv_notify_part001 (pe : Option GoError) (signals : List GoStr) :
    doneInv (Part001.NotifyContext pe signals) := by
  cases pe <;> simp [doneInv, Part001.NotifyContext]

theorem stop_stop (w : World) : step (step w Ev.stop) Ev.stop = step w Ev.stop := by
  simp [step, signalStop]
  cases h : w.sc.ch <;> simp [List.filter_filter]

theorem renderSignals_eq_intercalate (l : List GoStr) :
    Part001.renderSignals l = List.intercalate (gs " ") l := by
  induction l with
  | nil => simp [Part001.renderSignals, List.intercalate]
  | cons s t ih =>
    cases t with
    | nil => simp [Part001.renderSignals, List.intercalate, List.intersperse]
    | cons u rest =>
      simp [Part001.renderSignals, List.intercalate, List.intersperse] at ih ⊢
      simp [ih, gs]

theorem foldl_space_append (l : List GoStr) (b : GoStr) :
    l.foldl (fun b s => b ++ s ++ [' ']) b
      = b ++ (l.map (fun s => s ++ [' '])).flatten := by
  induction l generalizing b with
  | nil => simp
  | cons s t ih =>
    rw [List.foldl_cons, ih]
    simp [List.append_assoc]

/-- `part_001`'s `String`, applied to a child whose description is the parent
description followed by `".WithCancel"` (the `context` package's naming of a
`WithCancel` child), produces exactly the form the spec states. -/
theorem part001_strip (pd : GoStr) (signals : List GoStr) :
    Part001.stringOf ⟨some (pd ++ wcSuffix), signals⟩
      = Except.ok (specRender pd signals) := by
  simp only [Part001.stringOf, specRender, List.length_append]
  rw [if_neg (by omega)]
  have h1 : pd.length + wcSuffix.length - wcSuffix.length = pd.length := by omega
  rw [h1, List.take_left]
  cases signals with
  | nil => simp [gs]
  | cons s t => simp [renderSignals_eq_intercalate, List.append_assoc, gs]

/-- `src/sigctx.go`'s `String` always produces the fixed-placeholder,
trailing-space shape, whatever the parent's description is. -/
theorem sigctxgo_render (c : RenderCtx) :
    SigctxGo.stringOf c = specRenderTrailing (gs "parent") c.signals := by
  cases h : c.signals with
  | nil =>
    simp only [SigctxGo.stringOf, specRenderTrailing, h]
    decide
  | cons s t =>
    simp only [SigctxGo.stringOf, specRenderTrailing, h]
    rw [foldl_space_append]
    simp [gs, List.append_assoc]

/-! ## Claims -/

/-- C1: in both variants, for every parent and signal list, the derived
context is observably done exactly when the parent has become done or
`c.cancel` has been invoked; and `c.cancel` is invoked precisely by the three
triggers — the listener consuming a delivered signal notification, the stop
(disposal) function, and the direct internal cancel — while parent done-state
arises precisely from the parent-done event.  At construction nothing has
fired, so the first of these triggers is what makes the context done. -/
theorem C1_done_iff_trigger :
    (∀ (pe : Option GoError) (signals : List GoStr) (tr : List Ev),
        ctxDone (runTrace (SigctxGo.NotifyContext pe signals) tr)
          = ((runTrace (SigctxGo.NotifyContext pe signals) tr).sc.parentErr.isSome
              || (runTrace (SigctxGo.NotifyContext pe signals) tr).sc.cancelled))
  ∧ (∀ (pe : Option GoError) (signals : List GoStr) (tr : List Ev),
        ctxDone (runTrace (Part001.NotifyContext pe signals) tr)
          = ((runTrace (Part001.NotifyContext pe signals) tr).sc.parentErr.isSome
              || (runTrace (Part001.NotifyContext pe signals) tr).sc.cancelled))
  ∧ (∀ (w : World) (e : Ev),
        (step w e).sc.cancelled = (w.sc.cancelled || firesCancel w e))
  ∧ (∀ (w : World) (e : Ev),
        (step w e).sc.parentErr.isSome = (w.sc.parentErr.isSome || parentDoneEv e))
  ∧ (∀ (pe : Option GoError) (signals : List GoStr),
        (SigctxGo.NotifyContext pe signals).sc.cancelled = false
          ∧ (Part001.NotifyContext pe signals).sc.cancelled = false) :=
  ⟨fun pe signals tr => doneInv_run tr _ (doneInv_notify_sigctxGo pe signals),
   fun pe signals tr => doneInv_run tr _ (doneInv_notify_part001 pe signals),
   cancelled_step, parentErr_step,
   fun _ _ => ⟨rfl, rfl⟩⟩

/-- C2 counterexample: in the `src/sigctx.go` variant, constructing against an
already-done parent leaves the signal channel nil and registers nothing, so
the channel is not "allocated and registered unconditionally" as claimed. -/
theorem C2_counterexample :
    (SigctxGo.NotifyContext (some GoError.canceled) [gs "interrupt"]).sc.ch = none
  ∧ registeredFor (SigctxGo.NotifyContext (some GoError.canceled) [gs "interrupt"]) = false := by
  decide

/-- C2 (amended): the `part_001` variant allocates the channel and registers
interest unconditionally; the `src/sigctx.go` variant allocates and registers
exactly when the parent is still live at construction. -/
theorem C2_amended_registration (pe : Option GoError) (signals : List GoStr) :
    ((Part001.NotifyContext pe signals).sc.ch.isSome = true
      ∧ registeredFor (Part001.NotifyContext pe signals) = true)
  ∧ ((SigctxGo.NotifyContext pe signals).sc.ch.isSome = pe.isNone
      ∧ registeredFor (SigctxGo.NotifyContext pe signals) = pe.isNone) := by
  cases pe <;> simp [Part001.NotifyContext, SigctxGo.NotifyContext, registeredFor]

/-- C3 counterexample: a parent that becomes done by deadline expiry makes
the derived context done with `context.DeadlineExceeded`, not with the
standard cancelled reason — both variants expose the wrapped `WithCancel`
child's error, which propagates the parent's reason. -/
theorem C3_counterexample :
    ctxDone (runTrace (SigctxGo.NotifyContext none [])
        [Ev.parentDone GoError.deadlineExceeded]) = true
  ∧ ctxErr (runTrace (SigctxGo.NotifyContext none [])
        [Ev.parentDone GoError.deadlineExceeded]) ≠ some GoError.canceled := by
  decide

/-- C3 (amended): in both variants the completion reason is the standard
cancelled reason when the context becomes done through a watched signal or
through disposal; when the parent becomes done first, the parent's own reason
(whatever it is) propagates to the derived context. -/
theorem C3_amended_err (sig : GoStr) (rest : List GoStr) (e : GoError) :
    (ctxErr (runTrace (SigctxGo.NotifyContext none (sig :: rest))
        [Ev.sigDeliver sig, Ev.listenerRecv]) = some GoError.canceled
      ∧ ctxErr (runTrace (SigctxGo.NotifyContext none (sig :: rest)) [Ev.stop])
          = some GoError.canceled
      ∧ ctxErr (runTrace (SigctxGo.NotifyContext none (sig :: rest)) [Ev.parentDone e])
          = some e)
  ∧ (ctxErr (runTrace (Part001.NotifyContext none (sig :: rest))
        [Ev.sigDeliver sig, Ev.listenerRecv]) = some GoError.canceled
      ∧ ctxErr (runTrace (Part001.NotifyContext none (sig :: rest)) [Ev.stop])
          = some GoError.canceled
      ∧ ctxErr (runTrace (Part001.NotifyContext none (sig :: rest)) [Ev.parentDone e])
          = some e) := by
  simp [runTrace, step, relays, SigctxGo.NotifyContext, Part001.NotifyContext,
    ctxErr, signalStop]

/-- C4: in both variants the background listener goroutine is started exactly
when the parent is still live at construction — never for an already-done
parent, exactly one listener otherwise. -/
theorem C4_listener_iff_live (pe : Option GoError) (signals : List GoStr) :
    (SigctxGo.NotifyContext pe signals).sc.listener = pe.isNone
  ∧ (Part001.NotifyContext pe signals).sc.listener = pe.isNone := by
  cases pe <;> simp [SigctxGo.NotifyContext, Part001.NotifyContext]

/-- C5 counterexample: the `src/sigctx.go` variant appends a space after
every signal name, so with two signals the output carries a trailing space
before the closing bracket and is not of the claimed space-separated form. -/
theorem C5_counterexample :
    SigctxGo.stringOf ⟨some (gs "parent" ++ wcSuffix), [gs "interrupt", gs "hangup"]⟩
      = gs "signal.NotifyContext(parent, [interrupt hangup ])"
  ∧ gs "signal.NotifyContext(parent, [interrupt hangup ])"
      ≠ specRender (gs "parent") [gs "interrupt", gs "hangup"] := by
  decide

/-- C5 (amended): the `part_001` variant produces exactly the claimed form —
delegated parent description, names space-separated in order, the whole
signal segment (comma included) omitted when the list is empty; the
`src/sigctx.go` variant produces the same form except that the parent slot is
the fixed word `parent` and every signal name is followed by a space. -/
theorem C5_amended_forms (pd : GoStr) (signals : List GoStr) (d : Option GoStr) :
    Part001.stringOf ⟨some (pd ++ wcSuffix), signals⟩ = Except.ok (specRender pd signals)
  ∧ SigctxGo.stringOf ⟨d, signals⟩ = specRenderTrailing (gs "parent") signals :=
  ⟨part001_strip pd signals, sigctxgo_render ⟨d, signals⟩⟩

/-- C6 counterexample: `src/sigctx.go` renders the fixed placeholder `parent`
even when the parent supports a textual description (`context.TODO` here), so
the parent-description component is not obtained by delegation. -/
theorem C6_counterexample :
    SigctxGo.stringOf ⟨some (gs "context.TODO" ++ wcSuffix), []⟩
      = gs "signal.NotifyContext(parent)"
  ∧ gs "signal.NotifyContext(parent)" ≠ specRender (gs "context.TODO") [] := by
  decide

/-- C6 (amended): only the `part_001` variant delegates to the parent's
description (through the child's description with the `".WithCancel"` suffix
stripped); the `src/sigctx.go` variant's output is independent of the
parent's description. -/
theorem C6_amended_delegation (pd : GoStr) (signals : List GoStr) (d d' : Option GoStr) :
    Part001.stringOf ⟨some (pd ++ wcSuffix), signals⟩ = Except.ok (specRender pd signals)
  ∧ SigctxGo.stringOf ⟨d, signals⟩ = SigctxGo.stringOf ⟨d', signals⟩ := by
  refine ⟨part001_strip pd signals, ?_⟩
  rw [sigctxgo_render ⟨d, signals⟩, sigctxgo_render ⟨d', signals⟩]

/-- C7: the stop (disposal) function is idempotent — applying it `n + 1`
times to any state yields exactly the state of applying it once, so
cancellation and unregistration happen once in effect.  Each call is one
atomic transition, so concurrent invocations are interleavings of these
events and are covered by the same equation. -/
theorem C7_stop_idempotent (w : World) (n : Nat) :
    (fun v => step v Ev.stop)^[n + 1] w = step w Ev.stop := by
  induction n with
  | zero => simp
  | succ m ih => rw [Function.iterate_succ_apply', ih, stop_stop]

/-- C8: with an already-done parent, `src/sigctx.go` starts no listener,
leaves the channel nil and registers nothing; calling stop afterwards
completes normally — its entire effect is setting the cancelled flag, the
unregistration being a no-op on the nil channel.  In `part_001` the listener
is likewise not started and stop completes normally, removing the
registration that construction had made. -/
theorem C8_stop_safe_no_listener (e : GoError) (signals : List GoStr) :
    ((SigctxGo.NotifyContext (some e) signals).sc.listener = false
      ∧ (SigctxGo.NotifyContext (some e) signals).sc.ch = none
      ∧ (SigctxGo.NotifyContext (some e) signals).table = []
      ∧ step (SigctxGo.NotifyContext (some e) signals) Ev.stop
          = { sc := { (SigctxGo.NotifyContext (some e) signals).sc with cancelled := true }
              table := [] })
  ∧ ((Part001.NotifyContext (some e) signals).sc.listener = false
      ∧ step (Part001.NotifyContext (some e) signals) Ev.stop
          = { sc := { (Part001.NotifyContext (some e) signals).sc with cancelled := true }
              table := [] }) := by
  simp [SigctxGo.NotifyContext, Part001.NotifyContext, step, signalStop]

/-- C9 counterexample: a child description of twelve characters that does not
end in `".WithCancel"` violates the claimed precondition, yet `part_001`'s
`String` does not panic — it returns normally, silently stripping the last
eleven characters. -/
theorem C9_counterexample :
    ¬ (wcSuffix <:+ gs "abcdefghijkl")
  ∧ Part001.stringOf ⟨some (gs "abcdefghijkl"), []⟩
      = Except.ok (gs "signal.NotifyContext(a)") := by
  constructor
  · decide
  · rfl

/-- C9 (amended): `part_001`'s `String` panics exactly when the wrapped child
has no `String` method or its description is shorter than `".WithCancel"`; a
description at least that long never panics, even without the suffix — it is
merely mis-rendered. -/
theorem C9_amended_panic_iff (d : Option GoStr) (signals : List GoStr) :
    (∃ out, Part001.stringOf ⟨d, signals⟩ = Except.ok out)
      ↔ (∃ name, d = some name ∧ wcSuffix.length ≤ name.length) := by
  cases d with
  | none => simp [Part001.stringOf]
  | some name =>
    by_cases h : name.length < wcSuffix.length
    · simp [Part001.stringOf, h, Nat.not_le.mpr h]
    · simp [Part001.stringOf, h, Nat.not_lt.mp h]

/-- C10: registering with an empty signal list relays every incoming signal,
so a context derived with no signals (against a live parent) is not yet done
at construction but becomes done, with the cancelled reason, once any signal
is delivered and consumed by the listener — in both variants. -/
theorem C10_empty_signals_any (sig : GoStr) :
    relays [] sig = true
  ∧ ctxDone (SigctxGo.NotifyContext none []) = false
  ∧ ctxDone (runTrace (SigctxGo.NotifyContext none [])
        [Ev.sigDeliver sig, Ev.listenerRecv]) = true
  ∧ ctxErr (runTrace (SigctxGo.NotifyContext none [])
        [Ev.sigDeliver sig, Ev.listenerRecv]) = some GoError.canceled
  ∧ ctxDone (runTrace (Part001.NotifyContext none [])
        [Ev.sigDeliver sig, Ev.listenerRecv]) = true := by
  simp [relays, runTrace, step, SigctxGo.NotifyContext, Part001.NotifyContext,
    ctxDone, ctxErr]

end Sigctx
